import Mathlib

/-!
Verification development for the CSV differencing and file-discovery core of
the `cor_history_export` repository (`src/utils/helpers.py`).

The Python source is shallowly embedded as executable Lean definitions:

* text encodings are modelled byte-wise (`utf8Units`, `utf16Units`,
  `sjisUnits`): each decoder splits a byte list into decoding units, one
  `Option Char` per unit, `none` marking an undecodable unit.  Strict decoding
  (`errors='strict'`) fails iff some unit is `none`; replacement decoding
  (`errors='replace'`) maps `none` to U+FFFD.  The Shift-JIS double-byte
  table is modelled only for the code points exercised by this development
  (the lead/trail byte ranges are exact; unmodelled valid pairs are treated
  as undecodable units).  No theorem below depends on bytes outside the
  modelled table, and every read in the embedding goes through the same
  decoder on both sides of a comparison.
* the filesystem is a map from path to byte content plus a set of
  directories; Python file rows are obtained by the same
  detect-encoding / decode / universal-newline / csv-parse pipeline the
  source uses.
-/

namespace CorHistory

/-- Concatenate a list of lists. -/
def flatAll {α : Type} : List (List α) → List α
  | [] => []
  | l :: ls => l ++ flatAll ls

/-! ## Encoding layer (models Python `open(..., encoding=...)` reads) -/

/-- The three encodings the source's heuristic can resolve to
(`helpers.py` lines 401-412 / 436-446). -/
inductive Encoding where
  | utf8
  | utf16
  | shiftJis
deriving DecidableEq

/-- The replacement character U+FFFD substituted by `errors='replace'`. -/
def replChar : Char := Char.ofNat 0xFFFD

/-- Is `b` a UTF-8 continuation byte (`0x80`-`0xBF`)? -/
def isCont (b : Nat) : Bool := decide (0x80 ≤ b ∧ b ≤ 0xBF)

/-- Constraint on the first continuation byte of a 3-byte UTF-8 sequence
(excludes overlong forms and surrogates, as CPython's codec does). -/
def cont2ok (b b2 : Nat) : Bool :=
  if b = 0xE0 then decide (0xA0 ≤ b2 ∧ b2 ≤ 0xBF)
  else if b = 0xED then decide (0x80 ≤ b2 ∧ b2 ≤ 0x9F)
  else isCont b2

/-- Constraint on the first continuation byte of a 4-byte UTF-8 sequence. -/
def cont3ok (b b2 : Nat) : Bool :=
  if b = 0xF0 then decide (0x90 ≤ b2 ∧ b2 ≤ 0xBF)
  else if b = 0xF4 then decide (0x80 ≤ b2 ∧ b2 ≤ 0x8F)
  else isCont b2

/-- Split a byte list into UTF-8 decoding units, structurally recursing on a
fuel bound (one unit of fuel per consumed byte, so `fuel = bytes.length`
always suffices).  An invalid unit yields `none` and resynchronises one byte
later (this can differ from CPython's maximal-subpart policy in the number of
`none`s emitted for one corrupted multi-byte sequence; whether a `none`
occurs at all — the only fact the theorems below use — agrees). -/
def utf8UnitsF : Nat → List Nat → List (Option Char)
  | 0, _ => []
  | _ + 1, [] => []
  | fuel + 1, b :: bs =>
    if b < 0x80 then some (Char.ofNat b) :: utf8UnitsF fuel bs
    else if 0xC2 ≤ b ∧ b ≤ 0xDF then
      match bs with
      | b2 :: rest =>
        if isCont b2 then
          some (Char.ofNat ((b - 0xC0) * 0x40 + (b2 - 0x80))) :: utf8UnitsF fuel rest
        else none :: utf8UnitsF fuel bs
      | [] => [none]
    else if 0xE0 ≤ b ∧ b ≤ 0xEF then
      match bs with
      | b2 :: b3 :: rest =>
        if cont2ok b b2 ∧ isCont b3 then
          some (Char.ofNat ((b - 0xE0) * 0x1000 + (b2 - 0x80) * 0x40 + (b3 - 0x80)))
            :: utf8UnitsF fuel rest
        else none :: utf8UnitsF fuel bs
      | _ => none :: utf8UnitsF fuel bs
    else if 0xF0 ≤ b ∧ b ≤ 0xF4 then
      match bs with
      | b2 :: b3 :: b4 :: rest =>
        if cont3ok b b2 ∧ isCont b3 ∧ isCont b4 then
          some (Char.ofNat ((b - 0xF0) * 0x40000 + (b2 - 0x80) * 0x1000 +
            (b3 - 0x80) * 0x40 + (b4 - 0x80))) :: utf8UnitsF fuel rest
        else none :: utf8UnitsF fuel bs
      | _ => none :: utf8UnitsF fuel bs
    else none :: utf8UnitsF fuel bs

/-- UTF-8 decoding units of a byte list. -/
def utf8Units (bs : List Nat) : List (Option Char) := utf8UnitsF bs.length bs

/-- Split a byte list into UTF-16 decoding units (fuel-recursive as above).
`be` selects big-endian code-unit order; surrogate pairs are combined, lone
surrogates and odd trailing bytes are undecodable units. -/
def utf16UnitsF (be : Bool) : Nat → List Nat → List (Option Char)
  | 0, _ => []
  | _ + 1, [] => []
  | _ + 1, [_] => [none]
  | fuel + 1, a :: b :: rest =>
    let u := if be then a * 256 + b else b * 256 + a
    if 0xD800 ≤ u ∧ u ≤ 0xDBFF then
      match rest with
      | c :: d :: rest2 =>
        let u2 := if be then c * 256 + d else d * 256 + c
        if 0xDC00 ≤ u2 ∧ u2 ≤ 0xDFFF then
          some (Char.ofNat (0x10000 + (u - 0xD800) * 0x400 + (u2 - 0xDC00)))
            :: utf16UnitsF be fuel rest2
        else none :: utf16UnitsF be fuel rest
      | _ => none :: utf16UnitsF be fuel rest
    else if 0xDC00 ≤ u ∧ u ≤ 0xDFFF then none :: utf16UnitsF be fuel rest
    else some (Char.ofNat u) :: utf16UnitsF be fuel rest

/-- UTF-16 decoding units of a byte list. -/
def utf16Units (be : Bool) (bs : List Nat) : List (Option Char) :=
  utf16UnitsF be bs.length bs

/-- Is `b` a Shift-JIS double-byte lead byte? -/
def sjisLead (b : Nat) : Bool :=
  decide ((0x81 ≤ b ∧ b ≤ 0x9F) ∨ (0xE0 ≤ b ∧ b ≤ 0xFC))

/-- Is `b` a Shift-JIS double-byte trail byte? -/
def sjisTrail (b : Nat) : Bool := decide (0x40 ≤ b ∧ b ≤ 0xFC ∧ b ≠ 0x7F)

/-- Partial model of the Shift-JIS double-byte table: only the code points
exercised in this development are mapped; other (lead, trail) pairs are
treated as undecodable units. -/
def sjisPair (b b2 : Nat) : Option Char :=
  if b = 0x93 ∧ b2 = 0x63 then some '田'
  else if b = 0x92 ∧ b2 = 0x86 then some '中'
  else none

/-- Split a byte list into Shift-JIS decoding units (fuel-recursive as
above): ASCII bytes, halfwidth katakana (`0xA1`-`0xDF`), and double-byte
pairs via `sjisPair`. -/
def sjisUnitsF : Nat → List Nat → List (Option Char)
  | 0, _ => []
  | _ + 1, [] => []
  | fuel + 1, b :: bs =>
    if b ≤ 0x7F then some (Char.ofNat b) :: sjisUnitsF fuel bs
    else if 0xA1 ≤ b ∧ b ≤ 0xDF then
      some (Char.ofNat (0xFF61 + (b - 0xA1))) :: sjisUnitsF fuel bs
    else if sjisLead b then
      match bs with
      | b2 :: rest =>
        if sjisTrail b2 then
          match sjisPair b b2 with
          | some c => some c :: sjisUnitsF fuel rest
          | none => none :: sjisUnitsF fuel rest
        else none :: sjisUnitsF fuel bs
      | [] => [none]
    else none :: sjisUnitsF fuel bs

/-- Shift-JIS decoding units of a byte list. -/
def sjisUnits (bs : List Nat) : List (Option Char) := sjisUnitsF bs.length bs

/-- Strict decoding (`errors='strict'`): succeeds iff every unit decoded. -/
def strictOfUnits (us : List (Option Char)) : Option (List Char) :=
  if (∀ u ∈ us, u.isSome) then some (us.filterMap id) else none

/-- Replacement decoding (`errors='replace'`): undecodable units become
U+FFFD.  Total by construction — this is what makes the source's
`DecodeFailure` branch unreachable. -/
def replaceOfUnits (us : List (Option Char)) : List Char :=
  us.map (fun u => u.getD replChar)

/-- The source's 3-way encoding heuristic (`helpers.py` 401-412 / 436-446):
strict-UTF-8-decode the first 1 KiB; a decode error classifies the file as
Shift-JIS, a NUL character in the decoded prefix classifies it as UTF-16,
otherwise UTF-8.  (Python reads the first 1024 *characters*; we take the
first 1024 decoding units, which agrees except at the exact 1 KiB boundary,
which no theorem below exercises.) -/
def detectEncoding (bs : List Nat) : Encoding :=
  match strictOfUnits ((utf8Units bs).take 1024) with
  | none => Encoding.shiftJis
  | some cs => if Char.ofNat 0 ∈ cs then Encoding.utf16 else Encoding.utf8

/-- UTF-16 byte-order-mark handling: returns the big-endian flag and the
payload bytes (Python's `utf-16` codec honours a BOM and defaults to
little-endian). -/
def utf16Payload : List Nat → Bool × List Nat
  | 0xFF :: 0xFE :: rest => (false, rest)
  | 0xFE :: 0xFF :: rest => (true, rest)
  | bs => (false, bs)

/-- The decoding units of a byte list under a resolved encoding. -/
def unitsOf : Encoding → List Nat → List (Option Char)
  | Encoding.utf8, bs => utf8Units bs
  | Encoding.utf16, bs => utf16Units (utf16Payload bs).1 (utf16Payload bs).2
  | Encoding.shiftJis, bs => sjisUnits bs

/-- Full-file decode with replacement under a resolved encoding
(`open(path, 'r', encoding=encoding, errors='replace')`). -/
def fullDecode (e : Encoding) (bs : List Nat) : List Char :=
  replaceOfUnits (unitsOf e bs)

/-- Strict counterpart of `fullDecode` (what `errors='strict'` would do):
used to state that replacement decoding never fails where strict decoding
would succeed, and substitutes U+FFFD exactly where strict decoding would
raise. -/
def strictFullDecode (e : Encoding) (bs : List Nat) : Option (List Char) :=
  strictOfUnits (unitsOf e bs)

/-- UTF-8 encode one character (used by `open(..., 'w', encoding='utf-8')`). -/
def utf8EncodeChar (c : Char) : List Nat :=
  let n := c.toNat
  if n < 0x80 then [n]
  else if n < 0x800 then [0xC0 + n / 0x40, 0x80 + n % 0x40]
  else if n < 0x10000 then
    [0xE0 + n / 0x1000, 0x80 + n / 0x40 % 0x40, 0x80 + n % 0x40]
  else
    [0xF0 + n / 0x40000, 0x80 + n / 0x1000 % 0x40, 0x80 + n / 0x40 % 0x40,
      0x80 + n % 0x40]

/-- UTF-8 encode a character sequence. -/
def utf8Encode (cs : List Char) : List Nat :=
  flatAll (cs.map utf8EncodeChar)

/-! ## Text-mode newline translation and CSV parse / serialise

The source opens CSV files in text mode without `newline=''`, so Python's
universal-newline translation rewrites `\r\n` and lone `\r` to `\n` before
`csv.reader` sees the text; `csv.writer` output is written with
`newline=''`, so its `\r\n` line terminators reach the file unchanged. -/

/-- Universal-newline translation of Python text mode. -/
def nlTranslate : List Char → List Char
  | [] => []
  | '\r' :: '\n' :: rest => '\n' :: nlTranslate rest
  | '\r' :: rest => '\n' :: nlTranslate rest
  | c :: rest => c :: nlTranslate rest

/-- Parser states of `csv.reader` (excel dialect, `strict=False`) restricted
to translated input (records separated by `'\n'` only). -/
inductive CsvState where
  | startRecord
  | startField
  | inField
  | inQuoted
  | quoteInQuoted
deriving DecidableEq

/-- One step of the `csv.reader` state machine.  `field` is the current
field's characters, `row` the completed fields of the current record. -/
def csvAux : List Char → CsvState → List Char → List String → List (List String)
  | [], CsvState.startRecord, _, _ => []
  | [], _, field, row => [row ++ [String.mk field]]
  | c :: rest, CsvState.startRecord, _, _ =>
    if c = '\n' then [] :: csvAux rest CsvState.startRecord [] []
    else if c = '"' then csvAux rest CsvState.inQuoted [] []
    else if c = ',' then csvAux rest CsvState.startField [] [""]
    else csvAux rest CsvState.inField [c] []
  | c :: rest, CsvState.startField, _, row =>
    if c = '\n' then (row ++ [""]) :: csvAux rest CsvState.startRecord [] []
    else if c = '"' then csvAux rest CsvState.inQuoted [] row
    else if c = ',' then csvAux rest CsvState.startField [] (row ++ [""])
    else csvAux rest CsvState.inField [c] row
  | c :: rest, CsvState.inField, field, row =>
    if c = '\n' then (row ++ [String.mk field]) :: csvAux rest CsvState.startRecord [] []
    else if c = ',' then csvAux rest CsvState.startField [] (row ++ [String.mk field])
    else csvAux rest CsvState.inField (field ++ [c]) row
  | c :: rest, CsvState.inQuoted, field, row =>
    if c = '"' then csvAux rest CsvState.quoteInQuoted field row
    else csvAux rest CsvState.inQuoted (field ++ [c]) row
  | c :: rest, CsvState.quoteInQuoted, field, row =>
    if c = '"' then csvAux rest CsvState.inQuoted (field ++ ['"']) row
    else if c = ',' then csvAux rest CsvState.startField [] (row ++ [String.mk field])
    else if c = '\n' then (row ++ [String.mk field]) :: csvAux rest CsvState.startRecord [] []
    else csvAux rest CsvState.inField (field ++ [c]) row

/-- `csv.reader` over translated text: the list of records, each a list of
field strings (a blank line is the empty record `[]`). -/
def csvParse (cs : List Char) : List (List String) :=
  csvAux cs CsvState.startRecord [] []

/-- Does `csv.writer` (`QUOTE_MINIMAL`) need to quote this field? -/
def needsQuote (s : String) : Bool :=
  s.data.any (fun c => c = ',' ∨ c = '"' ∨ c = '\n' ∨ c = '\r')

/-- Double every quote character (the `doublequote=True` escape). -/
def escapeQuotes : List Char → List Char
  | [] => []
  | '"' :: rest => '"' :: '"' :: escapeQuotes rest
  | c :: rest => c :: escapeQuotes rest

/-- Serialise one field under `QUOTE_MINIMAL`. -/
def serializeField (s : String) : List Char :=
  if needsQuote s then '"' :: (escapeQuotes s.data ++ ['"'])
  else s.data

/-- Join serialised fields with the `,` delimiter. -/
def joinComma : List (List Char) → List Char
  | [] => []
  | [x] => x
  | x :: xs => x ++ ',' :: joinComma xs

/-- Serialise one record, with the writer's `\r\n` terminator.  A record
whose single field is empty is written `""` (CPython quotes it so the line
is not mistaken for a blank record). -/
def serializeRow (row : List String) : List Char :=
  if row = [""] then ['"', '"', '\r', '\n']
  else joinComma (row.map serializeField) ++ ['\r', '\n']

/-- Serialise a record list as `csv.writer` does. -/
def csvSerialize (rows : List (List String)) : List Char :=
  flatAll (rows.map serializeRow)

/-- The bytes `csv.writer` + `open(..., 'w', encoding='utf-8', newline='')`
produce for a record list. -/
def writeCsvBytes (rows : List (List String)) : List Nat :=
  utf8Encode (csvSerialize rows)

/-- The record list the source reads from a CSV file's bytes: resolve the
encoding, decode the whole file with replacement, translate newlines, parse. -/
def readRows (bs : List Nat) : List (List String) :=
  csvParse (nlTranslate (fullDecode (detectEncoding bs) bs))

/-! ## Filesystem model -/

/-- A filesystem: byte contents by path, plus the set of directories that
exist (only `data`-directory creation is observed by the claims). -/
structure FS where
  files : String → Option (List Nat)
  dirs : List String

/-- Overwrite (or create) the file at `p`. -/
def FS.writeFile (fs : FS) (p : String) (bs : List Nat) : FS :=
  { fs with files := fun q => if q = p then some bs else fs.files q }

/-- Delete the file at `p`. -/
def FS.removeFile (fs : FS) (p : String) : FS :=
  { fs with files := fun q => if q = p then none else fs.files q }

/-- `os.makedirs(d, exist_ok=True)` for a single directory component;
the empty dirname (output in the current directory) creates nothing,
mirroring the source's `if output_dir and not os.path.exists(output_dir)`. -/
def FS.mkdirs (fs : FS) (d : String) : FS :=
  if d = "" ∨ d ∈ fs.dirs then fs else { fs with dirs := d :: fs.dirs }

/-- `os.path.dirname`: the characters before the last `/` (empty when the
path has no slash). -/
def dirName (p : String) : String :=
  match p.data.reverse.dropWhile (fun c => c ≠ '/') with
  | [] => ""
  | _ :: rest => String.mk rest.reverse

/-! ## `extract_csv_differences` (helpers.py 371-525) -/

/-- Shallow embedding of `extract_csv_differences(new_file_path,
reference_file_path, output_file_path)`: returns the Python function's
boolean result and the filesystem after the call. -/
def extractCsvDifferences (fs : FS) (newFilePath referenceFilePath outputFilePath : String) :
    Bool × FS :=
  match fs.files newFilePath with
  | none => (false, fs)
  | some newBytes =>
    match fs.files referenceFilePath with
    | none =>
      -- reference missing: shutil.copy2 of the new file, byte for byte
      (true, fs.writeFile outputFilePath newBytes)
    | some refBytes =>
      match readRows refBytes with
      | [] => (false, fs)            -- StopIteration on the reference header
      | _refHeader :: referenceRecords =>
        match readRows newBytes with
        | [] => (false, fs)          -- StopIteration on the new header
        | newHeader :: newRows =>
          let newRecords := newRows.filter (fun row => decide (row ∉ referenceRecords))
          let fs1 := fs.mkdirs (dirName outputFilePath)
          if newRecords.isEmpty then
            (true, fs1.writeFile outputFilePath (writeCsvBytes [newHeader]))
          else
            (true, fs1.writeFile outputFilePath (writeCsvBytes (newHeader :: newRecords)))

/-! ## `find_latest_csv_in_downloads` (helpers.py 47-189) -/

/-- A directory entry as seen by `os.listdir` + `os.path` queries. -/
structure DirEntry where
  path : String
  name : String
  isFile : Bool
  mtime : Int
deriving DecidableEq

/-- `file_name.lower().endswith('.csv')` (ASCII lowering suffices for the
`.CSV`/`.csv` distinction the source cares about). -/
def lowerEndsWithCsv (s : String) : Bool :=
  ['.', 'c', 's', 'v'].isSuffixOf (s.data.map Char.toLower)

/-- The candidate pool of one search attempt: files from *all* existing
search directories whose name ends in `.csv` (case-insensitively) and whose
modification time is at least `now - max_age_minutes * 60`
(helpers.py 143-155). -/
def csvCandidates (now maxAgeMinutes : Int) (dirs : List (List DirEntry)) : List DirEntry :=
  (flatAll dirs).filter
    (fun e => e.isFile && lowerEndsWithCsv e.name && decide (now - maxAgeMinutes * 60 ≤ e.mtime))

/-- Python's `max(candidates, key=os.path.getmtime)`: the first entry of
maximal modification time. -/
def pickLatest : List DirEntry → Option DirEntry
  | [] => none
  | e :: es => some (es.foldl (fun acc x => if acc.mtime < x.mtime then x else acc) e)

/-- One retry attempt's view of the world: the wall-clock time when the
attempt runs and the listings of the existing search directories. -/
structure SearchAttempt where
  now : Int
  dirs : List (List DirEntry)

/-- Shallow embedding of `find_latest_csv_in_downloads`: one `SearchAttempt`
per loop iteration (the list has `retry_count` elements; the sleeps between
attempts are not modelled).  An attempt with no candidate falls through to
the next; exhausting all attempts yields `none`. -/
def findLatestCsvInDownloads (maxAgeMinutes : Int) : List SearchAttempt → Option String
  | [] => none
  | a :: rest =>
    match pickLatest (csvCandidates a.now maxAgeMinutes a.dirs) with
    | none => findLatestCsvInDownloads maxAgeMinutes rest
    | some e => some e.path

/-! ## `wait_for_new_csv_in_downloads` timeout fallback (helpers.py 285-314) -/

/-- The scanning loop `if file_time > latest_time: latest = file`:
a `foldl` carrying `(latest_csv, latest_time)`, starting from
`(None, 0)`. -/
def scanPool (init : Option String × Int) (es : List DirEntry) : Option String × Int :=
  es.foldl (fun acc e => if acc.2 < e.mtime then (some e.path, e.mtime) else acc) init

/-- Shallow embedding of the timeout fallback of
`wait_for_new_csv_in_downloads`: scan the project `downloads` directory
first; only when no CSV was found there, scan the remaining watched
directories; return the scan winner iff its modification time exceeds
`start_time - 300`. -/
def waitTimeoutFallback (projectCsvs : List DirEntry) (otherCsvs : List (List DirEntry))
    (startTime : Int) : Option String :=
  let afterProject := scanPool (none, 0) projectCsvs
  let final :=
    if afterProject.1 = none then scanPool afterProject (flatAll otherCsvs)
    else afterProject
  match final.1 with
  | some p => if startTime - 300 < final.2 then some p else none
  | none => none

/-! ## `move_file_to_data_dir` (helpers.py 316-369) -/

/-- A wall-clock instant as `datetime.now()` delivers it, at second
granularity (the granularity `%Y%m%d_%H%M%S` keeps). -/
structure DateTime where
  year : Nat
  month : Nat
  day : Nat
  hour : Nat
  minute : Nat
  second : Nat
deriving DecidableEq

/-- Field ranges of a real calendar instant (year bounded so `%Y` prints
four digits). -/
def DateTime.valid (t : DateTime) : Prop :=
  t.year ≤ 9999 ∧ 1 ≤ t.month ∧ t.month ≤ 12 ∧ 1 ≤ t.day ∧ t.day ≤ 31 ∧
    t.hour ≤ 23 ∧ t.minute ≤ 59 ∧ t.second ≤ 59

instance (t : DateTime) : Decidable t.valid := by
  unfold DateTime.valid; infer_instance

/-- The little-endian base-10 digits of `n`, zero-padded/truncated to
exactly `k` digits. -/
def padLE : Nat → Nat → List Nat
  | 0, _ => []
  | k + 1, n => n % 10 :: padLE k (n / 10)

/-- The character of a decimal digit. -/
def digitChar (d : Nat) : Char := Char.ofNat (48 + d)

/-- `n` printed as exactly `k` zero-padded decimal digits (`%0kd`). -/
def padDigits (k n : Nat) : List Char := (padLE k n).reverse.map digitChar

/-- `datetime.now().strftime("%Y%m%d_%H%M%S")` as a character list. -/
def timestampChars (t : DateTime) : List Char :=
  padDigits 4 t.year ++ padDigits 2 t.month ++ padDigits 2 t.day ++
    '_' :: (padDigits 2 t.hour ++ padDigits 2 t.minute ++ padDigits 2 t.second)

/-- `os.path.basename`: the characters after the last `/`. -/
def baseNameChars (p : String) : List Char :=
  (p.data.reverse.takeWhile (fun c => c ≠ '/')).reverse

/-- `os.path.splitext` on a basename: split at the last dot, except that a
dot inside a leading run of dots starts no extension. -/
def splitExtChars (cs : List Char) : List Char × List Char :=
  let rev := cs.reverse
  let extRev := rev.takeWhile (fun c => c ≠ '.')
  if extRev.length = rev.length then (cs, [])
  else
    let stemRev := rev.drop (extRev.length + 1)
    if stemRev.all (fun c => c = '.') then (cs, [])
    else (stemRev.reverse, '.' :: extRev.reverse)

/-- The destination path `move_file_to_data_dir` computes for source path
`p` at instant `t` (with no `new_filename` override):
`data/{stem}_{timestamp}{ext}`.  The `data` directory sits at the project
root, modelled here as the relative path `data`. -/
def moveDest (p : String) (t : DateTime) : String :=
  String.mk ("data/".data ++ (splitExtChars (baseNameChars p)).1 ++
    '_' :: (timestampChars t ++ (splitExtChars (baseNameChars p)).2))

/-- Shallow embedding of `move_file_to_data_dir(file_path, new_filename=None,
keep_original)`: `datetime.now()` is passed in as `now`.  Returns the
Python result (destination path or `None`) and the filesystem after the
call. -/
def moveFileToDataDir (fs : FS) (now : DateTime) (filePath : String) (keepOriginal : Bool) :
    Option String × FS :=
  match fs.files filePath with
  | none => (none, fs)
  | some content =>
    let fs1 := if "data" ∈ fs.dirs then fs else { fs with dirs := "data" :: fs.dirs }
    let dest := moveDest filePath now
    if keepOriginal then (some dest, fs1.writeFile dest content)
    else (some dest, (fs1.writeFile dest content).removeFile filePath)

/-! ## Helper lemmas -/

theorem FS.files_writeFile (fs : FS) (p : String) (bs : List Nat) (q : String) :
    (fs.writeFile p bs).files q = if q = p then some bs else fs.files q := rfl

theorem FS.files_mkdirs (fs : FS) (d : String) : (fs.mkdirs d).files = fs.files := by
  unfold FS.mkdirs; split <;> rfl

theorem FS.dirs_writeFile (fs : FS) (p : String) (bs : List Nat) :
    (fs.writeFile p bs).dirs = fs.dirs := rfl

theorem FS.files_removeFile (fs : FS) (p q : String) :
    (fs.removeFile p).files q = if q = p then none else fs.files q := rfl

theorem FS.dirs_removeFile (fs : FS) (p : String) :
    (fs.removeFile p).dirs = fs.dirs := rfl

/-- In the main branch (both files present and non-empty), the call succeeds
and writes the new header followed by the filtered rows; the two write
branches of the source (empty diff / non-empty diff) produce the same
serialisation. -/
theorem extract_main_eq (fs : FS) (np rp op : String) (nb rb : List Nat)
    (nh rh : List String) (nrest rrest : List (List String))
    (hn : fs.files np = some nb) (hr : fs.files rp = some rb)
    (hpn : readRows nb = nh :: nrest) (hpr : readRows rb = rh :: rrest) :
    extractCsvDifferences fs np rp op =
      (true, (fs.mkdirs (dirName op)).writeFile op
        (writeCsvBytes (nh :: nrest.filter (fun r => decide (r ∉ rrest))))) := by
  simp only [extractCsvDifferences, hn, hr, hpn, hpr]
  by_cases h : (List.filter (fun r => decide (r ∉ rrest)) nrest).isEmpty
  · have he : List.filter (fun r => decide (r ∉ rrest)) nrest = [] := by
      rwa [List.isEmpty_iff] at h
    rw [if_pos h, he]
  · rw [if_neg h]

/-! ## Claim C1 -/

/-- Claim C1: for every pair of existing, non-empty CSV files,
`extract_csv_differences` returns `True` and writes to `output_path` exactly
the new file's header followed by, in the new file's original row order,
those rows of the new file whose full ordered field tuple is absent from the
set of the reference file's row tuples; when no such row exists a header-only
file is still written and the call still returns `True` (the filter below is
then empty and the serialisation is the header alone); no other file
changes. -/
theorem extract_csv_differences_diff_spec (fs : FS) (np rp op : String) (nb rb : List Nat)
    (nh rh : List String) (nrest rrest : List (List String))
    (hn : fs.files np = some nb) (hr : fs.files rp = some rb)
    (hpn : readRows nb = nh :: nrest) (hpr : readRows rb = rh :: rrest) :
    (extractCsvDifferences fs np rp op).1 = true ∧
    (extractCsvDifferences fs np rp op).2.files op =
      some (writeCsvBytes (nh :: nrest.filter (fun r => decide (r ∉ rrest)))) ∧
    (∀ q, q ≠ op → (extractCsvDifferences fs np rp op).2.files q = fs.files q) := by
  rw [extract_main_eq fs np rp op nb rb nh rh nrest rrest hn hr hpn hpr]
  refine ⟨rfl, ?_, ?_⟩
  · rw [FS.files_writeFile, if_pos rfl]
  · intro q hq
    rw [FS.files_writeFile, if_neg hq, FS.files_mkdirs]

def nbC1 : List Nat := utf8Encode "a,b\nx,1\ny,2\n".data

def rbC1 : List Nat := utf8Encode "a,b\nx,1\n".data

def fsC1 : FS :=
  { files := fun p =>
      if p = "new.csv" then some nbC1 else if p = "ref.csv" then some rbC1 else none,
    dirs := [] }

/-- Witness for C1: a two-row new file against a one-row reference. -/
theorem extract_csv_differences_diff_spec_witness :
    (extractCsvDifferences fsC1 "new.csv" "ref.csv" "out.csv").1 = true ∧
    (extractCsvDifferences fsC1 "new.csv" "ref.csv" "out.csv").2.files "out.csv" =
      some (writeCsvBytes ([["a", "b"]] ++
        [["x", "1"], ["y", "2"]].filter (fun r => decide (r ∉ [["x", "1"]])))) ∧
    (∀ q, q ≠ "out.csv" →
      (extractCsvDifferences fsC1 "new.csv" "ref.csv" "out.csv").2.files q = fsC1.files q) :=
  extract_csv_differences_diff_spec fsC1 "new.csv" "ref.csv" "out.csv" nbC1 rbC1
    ["a", "b"] ["a", "b"] [["x", "1"], ["y", "2"]] [["x", "1"]]
    (by decide) (by decide) (by decide) (by decide)

/-! ## Claim C2 -/

/-- Claim C2: when the new file exists and the reference file does not,
`extract_csv_differences` copies the new file's bytes to `output_path`
unchanged and returns `True`. -/
theorem extract_csv_differences_copy_spec (fs : FS) (np rp op : String) (nb : List Nat)
    (hn : fs.files np = some nb) (hr : fs.files rp = none) :
    extractCsvDifferences fs np rp op = (true, fs.writeFile op nb) ∧
    (extractCsvDifferences fs np rp op).2.files op = some nb := by
  have h : extractCsvDifferences fs np rp op = (true, fs.writeFile op nb) := by
    simp only [extractCsvDifferences, hn, hr]
  exact ⟨h, by rw [h, FS.files_writeFile, if_pos rfl]⟩

/-- Witness for C2: the reference path is absent, the new file's bytes are
not valid UTF-8 and are still copied verbatim. -/
theorem extract_csv_differences_copy_spec_witness :
    extractCsvDifferences ⟨fun p => if p = "n.csv" then some [0x93, 0x63] else none, []⟩
        "n.csv" "r.csv" "o.csv" =
      (true, FS.writeFile ⟨fun p => if p = "n.csv" then some [0x93, 0x63] else none, []⟩
        "o.csv" [0x93, 0x63]) ∧
    (extractCsvDifferences ⟨fun p => if p = "n.csv" then some [0x93, 0x63] else none, []⟩
        "n.csv" "r.csv" "o.csv").2.files "o.csv" = some [0x93, 0x63] :=
  extract_csv_differences_copy_spec _ "n.csv" "r.csv" "o.csv" [0x93, 0x63] rfl rfl

/-! ## Claim C3 -/

theorem utf8EncodeChar_ne_nil (c : Char) : utf8EncodeChar c ≠ [] := by
  unfold utf8EncodeChar
  dsimp only
  split_ifs <;> simp

theorem utf8EncodeChar_head (c : Char) (b : Nat) (l : List Nat)
    (h : utf8EncodeChar c = b :: l) : b < 0x80 ∨ 0xC2 ≤ b := by
  unfold utf8EncodeChar at h
  dsimp only at h
  split_ifs at h with h1 h2 h3 <;> injection h with hb _ <;> omega

def nbC3 : List Nat := [0x93, 0x63]

def fsC3 : FS := { files := fun p => if p = "new.csv" then some nbC3 else none, dirs := [] }

/-- Counterexample to C3: a successful call (reference missing) writes bytes
that are not the UTF-8 encoding of any character sequence — the byte-for-byte
copy branch preserves the new file's original encoding instead of
transcoding to UTF-8. -/
theorem extract_output_utf8_counterexample :
    (extractCsvDifferences fsC3 "new.csv" "ref.csv" "out.csv").1 = true ∧
    (extractCsvDifferences fsC3 "new.csv" "ref.csv" "out.csv").2.files "out.csv" = some nbC3 ∧
    ¬ ∃ cs : List Char, nbC3 = utf8Encode cs := by
  refine ⟨by decide, by decide, ?_⟩
  rintro ⟨cs, hcs⟩
  cases cs with
  | nil => exact absurd hcs (by decide)
  | cons c cs2 =>
    have hsplit : utf8Encode (c :: cs2) = utf8EncodeChar c ++ utf8Encode cs2 := rfl
    rw [hsplit] at hcs
    cases he : utf8EncodeChar c with
    | nil => exact utf8EncodeChar_ne_nil c he
    | cons b l =>
      rw [he, List.cons_append] at hcs
      have hb : (0x93 : Nat) = b := by injection hcs
      have := utf8EncodeChar_head c b l he
      omega

/-- Claim C3 (amended): the written output is UTF-8 in the branches where the
reference file exists (diff and header-only writes); when the reference file
does not exist the output is the new file's bytes unchanged, so the input's
encoding is preserved rather than transcoded. -/
theorem extract_output_utf8_amended (fs : FS) (np rp op : String) (nb : List Nat)
    (hn : fs.files np = some nb) :
    (∀ rb nh rh nrest rrest, fs.files rp = some rb →
      readRows nb = nh :: nrest → readRows rb = rh :: rrest →
      ∃ cs : List Char,
        (extractCsvDifferences fs np rp op).2.files op = some (utf8Encode cs)) ∧
    (fs.files rp = none → (extractCsvDifferences fs np rp op).2.files op = some nb) := by
  constructor
  · intro rb nh rh nrest rrest hr hpn hpr
    refine ⟨csvSerialize (nh :: nrest.filter (fun r => decide (r ∉ rrest))), ?_⟩
    rw [extract_main_eq fs np rp op nb rb nh rh nrest rrest hn hr hpn hpr]
    rw [FS.files_writeFile, if_pos rfl]
    rfl
  · intro hr
    simp only [extractCsvDifferences, hn, hr]
    rw [FS.files_writeFile, if_pos rfl]

/-- Witness for the amended C3: the diff branch on the C1 filesystem and the
copy branch on the C3 filesystem. -/
theorem extract_output_utf8_amended_witness :
    (∃ cs : List Char,
      (extractCsvDifferences fsC1 "new.csv" "ref.csv" "out.csv").2.files "out.csv" =
        some (utf8Encode cs)) ∧
    (extractCsvDifferences fsC3 "new.csv" "ref.csv" "out.csv").2.files "out.csv" =
      some nbC3 :=
  ⟨(extract_output_utf8_amended fsC1 "new.csv" "ref.csv" "out.csv" nbC1 (by decide)).1
      rbC1 ["a", "b"] ["a", "b"] [["x", "1"], ["y", "2"]] [["x", "1"]]
      (by decide) (by decide) (by decide),
    (extract_output_utf8_amended fsC3 "new.csv" "ref.csv" "out.csv" nbC3 (by decide)).2
      (by decide)⟩

/-! ## Claim C4 -/

def fsC4 : FS := { files := fun p => if p = "e.csv" then some [] else none, dirs := [] }

/-- Counterexample to C4: a new file that exists but contains no rows at all,
with a *missing* reference file, makes the call return `True` and write an
output file (the empty copy) — not `False` with no output. -/
theorem extract_empty_new_counterexample :
    readRows ([] : List Nat) = [] ∧
    (extractCsvDifferences fsC4 "e.csv" "r.csv" "o.csv").1 = true ∧
    (extractCsvDifferences fsC4 "e.csv" "r.csv" "o.csv").2.files "o.csv" = some [] ∧
    fsC4.files "o.csv" = none := by
  refine ⟨by decide, by decide, ?_, by decide⟩
  simp only [extractCsvDifferences]
  rw [show fsC4.files "e.csv" = some [] from rfl, show fsC4.files "r.csv" = none from rfl]
  rfl

/-- Claim C4 (amended): when both files exist, an empty reference file (no
rows at all) makes the call return `False` with the filesystem untouched,
and likewise an empty new file when the reference file is non-empty; the
original claim's new-file clause fails when the reference file is missing
(see the counterexample), where the copy branch succeeds instead. -/
theorem extract_empty_inputs_amended (fs : FS) (np rp op : String) (nb rb : List Nat)
    (hn : fs.files np = some nb) (hr : fs.files rp = some rb) :
    (readRows rb = [] → extractCsvDifferences fs np rp op = (false, fs)) ∧
    (readRows rb ≠ [] → readRows nb = [] →
      extractCsvDifferences fs np rp op = (false, fs)) := by
  constructor
  · intro h
    simp only [extractCsvDifferences, hn, hr, h]
  · intro h hnew
    obtain ⟨rh, rrest, hre⟩ := List.exists_cons_of_ne_nil h
    simp only [extractCsvDifferences, hn, hr, hre, hnew]

def fsC4w : FS :=
  { files := fun p =>
      if p = "new0.csv" then some []
      else if p = "ref0.csv" then some []
      else if p = "refh.csv" then some (utf8Encode "a\n".data)
      else if p = "newx.csv" then some (utf8Encode "a\nb\n".data)
      else none,
    dirs := [] }

/-- Witness for the amended C4: an empty reference fails, and an empty new
file against a non-empty reference fails, both leaving the filesystem
unchanged. -/
theorem extract_empty_inputs_amended_witness :
    extractCsvDifferences fsC4w "newx.csv" "ref0.csv" "o.csv" = (false, fsC4w) ∧
    extractCsvDifferences fsC4w "new0.csv" "refh.csv" "o.csv" = (false, fsC4w) :=
  ⟨(extract_empty_inputs_amended fsC4w "newx.csv" "ref0.csv" "o.csv"
      (utf8Encode "a\nb\n".data) [] (by decide) (by decide)).1 (by decide),
    (extract_empty_inputs_amended fsC4w "new0.csv" "refh.csv" "o.csv"
      [] (utf8Encode "a\n".data) (by decide) (by decide)).2 (by decide) (by decide)⟩

/-! ## Claim C5 -/

def refBytesC5 : List Nat :=
  [105, 100, 44, 110, 97, 109, 101, 13, 10, 49, 44, 0x93, 0x63, 0x92, 0x86, 13, 10]

def newBytesC5 : List Nat := utf8Encode "id,name\r\n1,田中\r\n2,Suzuki\r\n".data

def fsC5 : FS :=
  { files := fun p =>
      if p = "new.csv" then some newBytesC5
      else if p = "ref.csv" then some refBytesC5
      else none,
    dirs := [] }

/-- Claim C5: end-to-end scenario — the reference file is Shift-JIS bytes of
header `id,name` and row `1,田中`, the new file is UTF-8 with the same
logical rows plus `2,Suzuki`; the heuristic classifies the files as
Shift-JIS and UTF-8 respectively, the shared logical row is recognised as
equal after decoding, and the output holds the header plus only
`2,Suzuki`. -/
theorem extract_encoding_e2e :
    (extractCsvDifferences fsC5 "new.csv" "ref.csv" "out.csv").1 = true ∧
    (extractCsvDifferences fsC5 "new.csv" "ref.csv" "out.csv").2.files "out.csv" =
      some (writeCsvBytes [["id", "name"], ["2", "Suzuki"]]) ∧
    detectEncoding refBytesC5 = Encoding.shiftJis ∧
    detectEncoding newBytesC5 = Encoding.utf8 ∧
    readRows refBytesC5 = [["id", "name"], ["1", "田中"]] ∧
    readRows newBytesC5 = [["id", "name"], ["1", "田中"], ["2", "Suzuki"]] := by
  decide

/-! ## Claim C10 -/

/-- Claim C10: membership in the reference set is tested per occurrence of
each new-file row — `k` identical occurrences of a row absent from the
reference all appear in the output (duplicates are not collapsed), and every
occurrence of a row present in the reference is dropped regardless of
multiplicity. -/
theorem extract_duplicates_spec (fs : FS) (np rp op : String) (nb rb : List Nat)
    (nh rh : List String) (nrest rrest : List (List String)) (r : List String)
    (hn : fs.files np = some nb) (hr : fs.files rp = some rb)
    (hpn : readRows nb = nh :: nrest) (hpr : readRows rb = rh :: rrest) :
    (extractCsvDifferences fs np rp op).2.files op =
      some (writeCsvBytes (nh :: nrest.filter (fun x => decide (x ∉ rrest)))) ∧
    (nrest.filter (fun x => decide (x ∉ rrest))).count r =
      (if r ∈ rrest then 0 else nrest.count r) := by
  constructor
  · rw [extract_main_eq fs np rp op nb rb nh rh nrest rrest hn hr hpn hpr]
    rw [FS.files_writeFile, if_pos rfl]
  · by_cases hm : r ∈ rrest
    · rw [if_pos hm, List.count_eq_zero]
      intro hmem
      rw [List.mem_filter] at hmem
      exact absurd hm (by simpa using hmem.2)
    · rw [if_neg hm]
      exact List.count_filter (by simpa using hm)

def nbC10 : List Nat := utf8Encode "h\na\na\nb\n".data

def rbC10 : List Nat := utf8Encode "h\nb\nb\n".data

def fsC10 : FS :=
  { files := fun p =>
      if p = "n.csv" then some nbC10 else if p = "r.csv" then some rbC10 else none,
    dirs := [] }

/-- Witness for C10: the row `a` occurs twice in the new file and not in the
reference; the row `b` occurs in both. -/
theorem extract_duplicates_spec_witness :
    (extractCsvDifferences fsC10 "n.csv" "r.csv" "o.csv").2.files "o.csv" =
      some (writeCsvBytes (["h"] ::
        [["a"], ["a"], ["b"]].filter (fun x => decide (x ∉ [["b"], ["b"]])))) ∧
    ([["a"], ["a"], ["b"]].filter (fun x => decide (x ∉ [["b"], ["b"]]))).count ["a"] =
      (if ["a"] ∈ [["b"], ["b"]] then 0 else [["a"], ["a"], ["b"]].count ["a"]) :=
  extract_duplicates_spec fsC10 "n.csv" "r.csv" "o.csv" nbC10 rbC10
    ["h"] ["h"] [["a"], ["a"], ["b"]] [["b"], ["b"]] ["a"]
    (by decide) (by decide) (by decide) (by decide)

/-! ## Claim C8 -/

theorem replaceOfUnits_of_strict {us : List (Option Char)} {cs : List Char}
    (h : strictOfUnits us = some cs) : replaceOfUnits us = cs := by
  unfold strictOfUnits at h
  split at h
  · next hall =>
    injection h with h
    subst h
    induction us with
    | nil => rfl
    | cons u us ih =>
      obtain ⟨c, rfl⟩ := Option.isSome_iff_exists.mp (hall u (by simp))
      simp only [replaceOfUnits, List.map_cons, Option.getD_some, List.filterMap_cons]
      exact congrArg (c :: ·) (ih (fun v hv => hall v (by simp [hv])))
  · exact absurd h (by simp)

theorem replChar_mem_of_strict_none {us : List (Option Char)}
    (h : strictOfUnits us = none) : replChar ∈ replaceOfUnits us := by
  unfold strictOfUnits at h
  split at h
  · exact absurd h (by simp)
  · next hall =>
    push_neg at hall
    obtain ⟨u, hu, hns⟩ := hall
    have hnone : u = none := by
      cases u with
      | none => rfl
      | some c => exact absurd rfl hns
    subst hnone
    unfold replaceOfUnits
    exact List.mem_map.mpr ⟨none, hu, rfl⟩

/-- Claim C8: for any byte content and any resolved encoding, the full-file
replacement decode used by `extract_csv_differences` (`fullDecode`) never
fails — it agrees with strict decoding whenever strict decoding succeeds,
and where strict decoding would raise it yields a character sequence
containing the placeholder U+FFFD instead; the defensive `DecodeFailure`
case is therefore unreachable. -/
theorem decode_replace_spec (e : Encoding) (bs : List Nat) :
    (∀ cs, strictFullDecode e bs = some cs → fullDecode e bs = cs) ∧
    (strictFullDecode e bs = none → replChar ∈ fullDecode e bs) :=
  ⟨fun _ h => replaceOfUnits_of_strict h, fun h => replChar_mem_of_strict_none h⟩

/-- Witness for C8: a strictly decodable UTF-8 byte and a byte that no
Shift-JIS strict decode accepts (`0xFF`), which decodes to the placeholder
instead of failing. -/
theorem decode_replace_spec_witness :
    fullDecode Encoding.utf8 [0x41] = ['A'] ∧
    replChar ∈ fullDecode Encoding.shiftJis [0xFF] :=
  ⟨(decode_replace_spec Encoding.utf8 [0x41]).1 ['A'] (by decide),
    (decode_replace_spec Encoding.shiftJis [0xFF]).2 (by decide)⟩

/-! ## Claim C6 -/

theorem foldl_max_spec (es : List DirEntry) (e : DirEntry) :
    (es.foldl (fun acc x => if acc.mtime < x.mtime then x else acc) e = e ∨
      es.foldl (fun acc x => if acc.mtime < x.mtime then x else acc) e ∈ es) ∧
    e.mtime ≤ (es.foldl (fun acc x => if acc.mtime < x.mtime then x else acc) e).mtime ∧
    (∀ x ∈ es, x.mtime ≤
      (es.foldl (fun acc x => if acc.mtime < x.mtime then x else acc) e).mtime) := by
  induction es generalizing e with
  | nil => simp
  | cons a as ih =>
    simp only [List.foldl_cons]
    by_cases h : e.mtime < a.mtime
    · rw [if_pos h]
      obtain ⟨h1, h2, h3⟩ := ih a
      refine ⟨?_, le_trans (le_of_lt h) h2, ?_⟩
      · rcases h1 with h1 | h1
        · exact Or.inr (by rw [h1]; exact List.mem_cons_self a as)
        · exact Or.inr (List.mem_cons_of_mem a h1)
      · intro x hx
        rcases List.mem_cons.mp hx with rfl | hx
        · exact h2
        · exact h3 x hx
    · rw [if_neg h]
      obtain ⟨h1, h2, h3⟩ := ih e
      refine ⟨?_, h2, ?_⟩
      · rcases h1 with h1 | h1
        · exact Or.inl h1
        · exact Or.inr (List.mem_cons_of_mem a h1)
      · intro x hx
        rcases List.mem_cons.mp hx with rfl | hx
        · exact le_trans (le_of_not_lt h) h2
        · exact h3 x hx

theorem pickLatest_spec (l : List DirEntry) (hl : l ≠ []) :
    ∃ e, e ∈ l ∧ pickLatest l = some e ∧ ∀ x ∈ l, x.mtime ≤ e.mtime := by
  obtain ⟨a, as, rfl⟩ := List.exists_cons_of_ne_nil hl
  obtain ⟨h1, h2, h3⟩ := foldl_max_spec as a
  refine ⟨_, ?_, rfl, ?_⟩
  · rcases h1 with h1 | h1
    · rw [h1]; exact List.mem_cons_self a as
    · exact List.mem_cons_of_mem a h1
  · intro x hx
    rcases List.mem_cons.mp hx with rfl | hx
    · exact h2
    · exact h3 x hx

def attC6 : SearchAttempt :=
  { now := 10000,
    dirs := [[{ path := "d1/old.csv", name := "old.csv", isFile := true, mtime := 7600 }],
      [{ path := "d2/mid.csv", name := "mid.csv", isFile := true, mtime := 9400 },
        { path := "d2/new.csv", name := "new.csv", isFile := true, mtime := 9940 }]] }

/-- Claim C6: candidates are pooled from all existing search directories,
a candidate's modification time is at least `now - max_age_minutes * 60`
for the attempt's own wall-clock `now`, and the most recently modified
candidate of the pool is returned; exhausting every retry with an empty pool
yields `none`.  The concrete conjunct is the 40/10/1-minute scenario with a
30-minute window (files spread over two directories): the 1-minute-old file
is returned. -/
theorem find_latest_csv_spec (m : Int) (attempts : List SearchAttempt) :
    ((∀ a ∈ attempts, csvCandidates a.now m a.dirs = []) →
      findLatestCsvInDownloads m attempts = none) ∧
    (∀ a rest, attempts = a :: rest → csvCandidates a.now m a.dirs ≠ [] →
      ∃ e, e ∈ csvCandidates a.now m a.dirs ∧
        findLatestCsvInDownloads m attempts = some e.path ∧
        (∀ x ∈ csvCandidates a.now m a.dirs, x.mtime ≤ e.mtime) ∧
        e.isFile = true ∧ lowerEndsWithCsv e.name = true ∧ a.now - m * 60 ≤ e.mtime) ∧
    findLatestCsvInDownloads 30 [attC6] = some "d2/new.csv" := by
  refine ⟨?_, ?_, by decide⟩
  · intro hall
    induction attempts with
    | nil => rfl
    | cons a rest ih =>
      have ha : csvCandidates a.now m a.dirs = [] := hall a (List.mem_cons_self a rest)
      simp only [findLatestCsvInDownloads, ha, pickLatest]
      exact ih (fun a2 h2 => hall a2 (List.mem_cons_of_mem a h2))
  · intro a rest heq hne
    subst heq
    obtain ⟨e, he, hpick, hmax⟩ := pickLatest_spec _ hne
    have hmem := he
    rw [csvCandidates, List.mem_filter] at hmem
    obtain ⟨-, hp⟩ := hmem
    simp only [Bool.and_eq_true, decide_eq_true_eq] at hp
    refine ⟨e, he, ?_, hmax, hp.1.1, hp.1.2, hp.2⟩
    simp only [findLatestCsvInDownloads, hpick]

/-- Witness for C6: no-candidate attempts yield `none`; on the concrete
40/10/1-minute scenario the pooled maximum is returned and bounds every
candidate. -/
theorem find_latest_csv_spec_witness :
    findLatestCsvInDownloads 30 [] = none ∧
    (∃ e, e ∈ csvCandidates attC6.now 30 attC6.dirs ∧
      findLatestCsvInDownloads 30 [attC6] = some e.path ∧
      (∀ x ∈ csvCandidates attC6.now 30 attC6.dirs, x.mtime ≤ e.mtime) ∧
      e.isFile = true ∧ lowerEndsWithCsv e.name = true ∧
      attC6.now - 30 * 60 ≤ e.mtime) ∧
    findLatestCsvInDownloads 30 [attC6] = some "d2/new.csv" :=
  ⟨(find_latest_csv_spec 30 []).1 (by simp),
    (find_latest_csv_spec 30 [attC6]).2.1 attC6 [] rfl (by decide),
    (find_latest_csv_spec 30 []).2.2⟩

/-! ## Claim C7 -/

def projEntryA : DirEntry :=
  { path := "downloads/a.csv", name := "a.csv", isFile := true, mtime := 900 }

def otherEntryB : DirEntry :=
  { path := "other/b.csv", name := "b.csv", isFile := true, mtime := 990 }

/-- Counterexample to C7: on timeout the fallback returns a CSV from the
project `downloads` directory even though another watched directory holds a
strictly more recently modified CSV (also inside the grace window) — the
result is not the most recently modified file across the watched
directories. -/
theorem wait_timeout_fallback_counterexample :
    waitTimeoutFallback [projEntryA] [[otherEntryB]] 1000 = some "downloads/a.csv" ∧
    otherEntryB ∈ flatAll [[otherEntryB]] ∧
    projEntryA.mtime < otherEntryB.mtime ∧
    (1000 : Int) - 300 < otherEntryB.mtime ∧
    "downloads/a.csv" ≠ "other/b.csv" := by
  refine ⟨by decide, by decide, by decide, by decide, by decide⟩

theorem scanPool_spec (es : List DirEntry) (p0 : Option String) (t0 : Int) :
    (scanPool (p0, t0) es = (p0, t0) ∧ ∀ x ∈ es, x.mtime ≤ t0) ∨
    (∃ e, e ∈ es ∧ scanPool (p0, t0) es = (some e.path, e.mtime) ∧ t0 < e.mtime ∧
      ∀ x ∈ es, x.mtime ≤ e.mtime) := by
  induction es generalizing p0 t0 with
  | nil => exact Or.inl ⟨rfl, by simp⟩
  | cons a as ih =>
    have hstep : scanPool (p0, t0) (a :: as) =
        scanPool (if t0 < a.mtime then (some a.path, a.mtime) else (p0, t0)) as := by
      simp only [scanPool, List.foldl_cons]
    by_cases h : t0 < a.mtime
    · rw [if_pos h] at hstep
      rcases ih (some a.path) a.mtime with ⟨heq, hall⟩ | ⟨e, he, heq, hlt, hall⟩
      · refine Or.inr ⟨a, List.mem_cons_self a as, ?_, h, ?_⟩
        · rw [hstep, heq]
        · intro x hx
          rcases List.mem_cons.mp hx with rfl | hx
          · exact le_refl _
          · exact hall x hx
      · refine Or.inr ⟨e, List.mem_cons_of_mem a he, ?_, lt_trans h hlt, ?_⟩
        · rw [hstep, heq]
        · intro x hx
          rcases List.mem_cons.mp hx with rfl | hx
          · exact le_of_lt hlt
          · exact hall x hx
    · rw [if_neg h] at hstep
      rcases ih p0 t0 with ⟨heq, hall⟩ | ⟨e, he, heq, hlt, hall⟩
      · refine Or.inl ⟨by rw [hstep, heq], ?_⟩
        intro x hx
        rcases List.mem_cons.mp hx with rfl | hx
        · exact le_of_not_lt h
        · exact hall x hx
      · refine Or.inr ⟨e, List.mem_cons_of_mem a he, by rw [hstep, heq], hlt, ?_⟩
        intro x hx
        rcases List.mem_cons.mp hx with rfl | hx
        · exact le_trans (le_of_not_lt h) (le_of_lt hlt)
        · exact hall x hx

/-- Claim C7 (amended): on timeout the fallback prefers the project
`downloads` directory — it returns the most recently modified CSV *of the
project directory* when that directory holds any CSV, and only otherwise the
most recently modified CSV across the remaining watched directories; in
either case the file is returned only if its modification time exceeds
`start_time - 300` (300 seconds before the wait began, i.e. within
`timeout + 300` seconds of the timeout boundary), and the result is `none`
otherwise or when no CSV exists at all. -/
theorem wait_timeout_fallback_spec (proj : List DirEntry) (others : List (List DirEntry))
    (start : Int) (hp : ∀ e ∈ proj, 0 < e.mtime) (ho : ∀ e ∈ flatAll others, 0 < e.mtime) :
    (proj = [] → flatAll others = [] → waitTimeoutFallback proj others start = none) ∧
    (proj ≠ [] → ∃ e, e ∈ proj ∧ (∀ x ∈ proj, x.mtime ≤ e.mtime) ∧
      waitTimeoutFallback proj others start =
        (if start - 300 < e.mtime then some e.path else none)) ∧
    (proj = [] → flatAll others ≠ [] → ∃ e, e ∈ flatAll others ∧
      (∀ x ∈ flatAll others, x.mtime ≤ e.mtime) ∧
      waitTimeoutFallback proj others start =
        (if start - 300 < e.mtime then some e.path else none)) := by
  refine ⟨?_, ?_, ?_⟩
  · intro h1 h2
    subst h1
    simp [waitTimeoutFallback, scanPool, h2]
  · intro hne
    rcases scanPool_spec proj none 0 with ⟨-, hall⟩ | ⟨e, he, heq, -, hall⟩
    · obtain ⟨a, as, rfl⟩ := List.exists_cons_of_ne_nil hne
      exact absurd (hall a (List.mem_cons_self a as)) (not_le.mpr (hp a (List.mem_cons_self a as)))
    · refine ⟨e, he, hall, ?_⟩
      simp only [waitTimeoutFallback, heq]
      simp
  · intro h1 hne
    subst h1
    have h0 : scanPool ((none : Option String), (0 : Int)) [] =
        ((none : Option String), (0 : Int)) := rfl
    rcases scanPool_spec (flatAll others) none 0 with ⟨-, hall⟩ | ⟨e, he, heq, -, hall⟩
    · obtain ⟨a, as, hcons⟩ := List.exists_cons_of_ne_nil hne
      refine absurd (hall a ?_) (not_le.mpr (ho a ?_)) <;>
        rw [hcons] <;> exact List.mem_cons_self a as
    · refine ⟨e, he, hall, ?_⟩
      simp only [waitTimeoutFallback, h0, heq]
      simp

/-- Witness for C7 (amended): the project directory wins with its grace
check applied. -/
theorem wait_timeout_fallback_spec_witness :
    ∃ e, e ∈ [projEntryA] ∧ (∀ x ∈ [projEntryA], x.mtime ≤ e.mtime) ∧
      waitTimeoutFallback [projEntryA] [[otherEntryB]] 1000 =
        (if (1000 : Int) - 300 < e.mtime then some e.path else none) :=
  (wait_timeout_fallback_spec [projEntryA] [[otherEntryB]] 1000
    (by decide) (by decide)).2.1 (by decide)

/-! ## Claim C9 -/

theorem padLE_length (k n : Nat) : (padLE k n).length = k := by
  induction k generalizing n with
  | zero => rfl
  | succ k ih => simp [padLE, ih]

/-- Value of a little-endian digit list (left inverse of `padLE`). -/
def unpadLE : List Nat → Nat
  | [] => 0
  | d :: ds => d + 10 * unpadLE ds

theorem unpadLE_padLE (k n : Nat) (h : n < 10 ^ k) : unpadLE (padLE k n) = n := by
  induction k generalizing n with
  | zero =>
    simp only [pow_zero] at h
    simp only [padLE, unpadLE]
    omega
  | succ k ih =>
    simp only [padLE, unpadLE]
    rw [ih (n / 10) (by
      have hp : (10 : Nat) ^ (k + 1) = 10 ^ k * 10 := pow_succ 10 k
      omega)]
    omega

theorem padLE_inj {k n m : Nat} (hn : n < 10 ^ k) (hm : m < 10 ^ k)
    (h : padLE k n = padLE k m) : n = m := by
  rw [← unpadLE_padLE k n hn, ← unpadLE_padLE k m hm, h]

theorem padLE_digit_lt (k n : Nat) : ∀ d ∈ padLE k n, d < 10 := by
  induction k generalizing n with
  | zero => simp [padLE]
  | succ k ih =>
    intro d hd
    simp only [padLE, List.mem_cons] at hd
    rcases hd with rfl | hd
    · omega
    · exact ih (n / 10) d hd

theorem digitChar_inj {d e : Nat} (hd : d < 10) (he : e < 10)
    (h : digitChar d = digitChar e) : d = e := by
  interval_cases d <;> interval_cases e <;> revert h <;> decide

theorem map_digitChar_inj {xs ys : List Nat} (hx : ∀ x ∈ xs, x < 10)
    (hy : ∀ y ∈ ys, y < 10) (h : xs.map digitChar = ys.map digitChar) : xs = ys := by
  induction xs generalizing ys with
  | nil =>
    cases ys with
    | nil => rfl
    | cons y ys => simp at h
  | cons x xs ih =>
    cases ys with
    | nil => simp at h
    | cons y ys =>
      simp only [List.map_cons, List.cons.injEq] at h
      have hh := digitChar_inj (hx x (by simp)) (hy y (by simp)) h.1
      have ht := ih (fun a ha => hx a (by simp [ha])) (fun a ha => hy a (by simp [ha])) h.2
      rw [hh, ht]

theorem padDigits_length (k n : Nat) : (padDigits k n).length = k := by
  simp [padDigits, padLE_length]

theorem padDigits_inj {k n m : Nat} (hn : n < 10 ^ k) (hm : m < 10 ^ k)
    (h : padDigits k n = padDigits k m) : n = m := by
  unfold padDigits at h
  have h2 : (padLE k n).reverse = (padLE k m).reverse :=
    map_digitChar_inj (fun x hx => padLE_digit_lt k n x (List.mem_reverse.mp hx))
      (fun y hy => padLE_digit_lt k m y (List.mem_reverse.mp hy)) h
  have h3 : padLE k n = padLE k m := by
    have h4 := congrArg List.reverse h2
    simpa using h4
  exact padLE_inj hn hm h3

theorem timestampChars_inj {t1 t2 : DateTime} (hv1 : t1.valid) (hv2 : t2.valid)
    (h : timestampChars t1 = timestampChars t2) : t1 = t2 := by
  have hpow2 : (10 : Nat) ^ 2 = 100 := by norm_num
  have hpow4 : (10 : Nat) ^ 4 = 10000 := by norm_num
  unfold DateTime.valid at hv1 hv2
  obtain ⟨hy1, hmo1a, hmo1b, hd1a, hd1b, hh1, hmi1, hs1⟩ := hv1
  obtain ⟨hy2, hmo2a, hmo2b, hd2a, hd2b, hh2, hmi2, hs2⟩ := hv2
  unfold timestampChars at h
  obtain ⟨hymd, h⟩ := List.append_inj h (by simp [padDigits_length])
  injection h with h5 h
  obtain ⟨hhm, es⟩ := List.append_inj h (by simp [padDigits_length])
  obtain ⟨eh, emi⟩ := List.append_inj hhm (by simp [padDigits_length])
  obtain ⟨hym, ed⟩ := List.append_inj hymd (by simp [padDigits_length])
  obtain ⟨ey, emo⟩ := List.append_inj hym (by simp [padDigits_length])
  have ey2 := padDigits_inj (by omega) (by omega) ey
  have emo2 := padDigits_inj (by omega) (by omega) emo
  have ed2 := padDigits_inj (by omega) (by omega) ed
  have eh2 := padDigits_inj (by omega) (by omega) eh
  have emi2 := padDigits_inj (by omega) (by omega) emi
  have es2 := padDigits_inj (by omega) (by omega) es
  cases t1
  cases t2
  simp only at ey2 emo2 ed2 eh2 emi2 es2
  rw [ey2, emo2, ed2, eh2, emi2, es2]

theorem moveDest_inj (p : String) {t1 t2 : DateTime} (hv1 : t1.valid) (hv2 : t2.valid)
    (hne : t1 ≠ t2) : moveDest p t1 ≠ moveDest p t2 := by
  intro h
  apply hne
  apply timestampChars_inj hv1 hv2
  unfold moveDest at h
  injection h with h
  simp only [← List.append_assoc] at h
  have h2 := List.append_cancel_left h
  injection h2 with h3 h4
  exact List.append_cancel_right h4

/-- Claim C9: `move_file_to_data_dir` returns `None` and changes nothing
when the source is missing; otherwise it names the destination
`data/{stem}_{timestamp}{ext}` (`moveDest`), creates the `data` directory,
writes the source content there, keeps the source on a copy
(`keep_original = true`) and deletes it on a move; distinct (valid)
timestamps — in particular any two calls at least one second apart — yield
distinct destination names, while calls within the same second may
collide. -/
theorem move_file_to_data_dir_spec (fs : FS) (now now2 : DateTime) (filePath : String)
    (keep : Bool) :
    (fs.files filePath = none → moveFileToDataDir fs now filePath keep = (none, fs)) ∧
    (∀ content, fs.files filePath = some content →
      (moveFileToDataDir fs now filePath keep).1 = some (moveDest filePath now) ∧
      "data" ∈ (moveFileToDataDir fs now filePath keep).2.dirs ∧
      (keep = true →
        (moveFileToDataDir fs now filePath keep).2.files (moveDest filePath now) =
          some content ∧
        (moveFileToDataDir fs now filePath keep).2.files filePath = some content) ∧
      (keep = false → filePath ≠ moveDest filePath now →
        (moveFileToDataDir fs now filePath keep).2.files (moveDest filePath now) =
          some content ∧
        (moveFileToDataDir fs now filePath keep).2.files filePath = none)) ∧
    (now.valid → now2.valid → now ≠ now2 →
      moveDest filePath now ≠ moveDest filePath now2) := by
  refine ⟨?_, ?_, fun hv1 hv2 hne => moveDest_inj filePath hv1 hv2 hne⟩
  · intro h
    simp only [moveFileToDataDir, h]
  · intro content h
    cases keep with
    | true =>
      simp only [moveFileToDataDir, h, if_true]
      refine ⟨trivial, ?_, ?_, ?_⟩
      · rw [FS.dirs_writeFile]
        split
        · next hd => exact hd
        · exact List.mem_cons_self _ _
      · intro _
        constructor
        · rw [FS.files_writeFile, if_pos rfl]
        · rw [FS.files_writeFile]
          split
          · rfl
          · split <;> exact h
      · intro hfalse
        exact absurd hfalse (by decide)
    | false =>
      simp only [moveFileToDataDir, h, Bool.false_eq_true, if_false]
      refine ⟨trivial, ?_, ?_, ?_⟩
      · rw [FS.dirs_removeFile, FS.dirs_writeFile]
        split
        · next hd => exact hd
        · exact List.mem_cons_self _ _
      · intro htrue
        exact absurd htrue (by decide)
      · intro _ hne
        have hne2 : moveDest filePath now ≠ filePath := Ne.symm hne
        constructor
        · rw [FS.files_removeFile, if_neg hne2, FS.files_writeFile, if_pos rfl]
        · rw [FS.files_removeFile, if_pos rfl]

def fsC9 : FS := { files := fun p => if p = "dl/a.csv" then some [1, 2] else none, dirs := [] }

def tC9a : DateTime :=
  { year := 2025, month := 1, day := 2, hour := 3, minute := 4, second := 5 }

def tC9b : DateTime :=
  { year := 2025, month := 1, day := 2, hour := 3, minute := 4, second := 6 }

/-- Witness for C9: a copy call one second before a second call; the two
destination names differ, the missing-source call fails, and the concrete
destination name shows the `{stem}_{timestamp}{ext}` shape. -/
theorem move_file_to_data_dir_spec_witness :
    (moveFileToDataDir fsC9 tC9a "dl/a.csv" true).1 = some (moveDest "dl/a.csv" tC9a) ∧
    "data" ∈ (moveFileToDataDir fsC9 tC9a "dl/a.csv" true).2.dirs ∧
    (moveFileToDataDir fsC9 tC9a "dl/a.csv" true).2.files (moveDest "dl/a.csv" tC9a) =
      some [1, 2] ∧
    (moveFileToDataDir fsC9 tC9a "dl/a.csv" true).2.files "dl/a.csv" = some [1, 2] ∧
    moveFileToDataDir fsC9 tC9a "missing.csv" true = (none, fsC9) ∧
    moveDest "dl/a.csv" tC9a ≠ moveDest "dl/a.csv" tC9b ∧
    moveDest "dl/a.csv" tC9a = "data/a_20250102_030405.csv" := by
  have h := move_file_to_data_dir_spec fsC9 tC9a tC9b "dl/a.csv" true
  have hmain := h.2.1 [1, 2] (by decide)
  have hkeep := hmain.2.2.1 rfl
  have hmiss := (move_file_to_data_dir_spec fsC9 tC9a tC9b "missing.csv" true).1 (by decide)
  exact ⟨hmain.1, hmain.2.1, hkeep.1, hkeep.2, hmiss,
    h.2.2 (by decide) (by decide) (by decide), by decide⟩

end CorHistory
